import Mathlib

/-!
Verification of the orix fundamental-domain code.

This file gives a shallow embedding of the parts of the orix repository that
compute fundamental domains for crystallographic point groups, and proves or
refutes the frozen specification claims about them.

Two components are embedded:

* `FundamentalSector` (src/orix/vector/fundamental_sector.py): the spherical
  fundamental sector with its derived `vertices`, `center` and `edges`
  properties.  These definitions are translated line by line from the Python
  source.  The vector/quaternion primitive library (`Vector3d` normalization,
  `angle_with`, `azimuth`/`polar`, rotation, `get_circle`, the uniform sphere
  sampler) is out of scope of the specification ("external collaborators with
  fixed interfaces"), so those primitives are abstracted into a record of
  parameters `Prims`; every theorem is parametric in them, and concrete
  witnesses instantiate them with simple exact stand-ins.
  The floating-point scalar is idealized as an arbitrary linearly ordered
  commutative ring with a division operation (division is only used by the
  componentwise `mean`); witnesses use `K = ℤ`, where all divisions that
  actually occur are exact.

* The proper-group resolver `get_proper_groups` and the distinguished-point
  finder `get_distinguished_points` (src/orix/quaternion/…) are NOT part of
  the sources provided under src/ (only their tests are), so they are
  modelled from the specification text, constrained by the repository's own
  tests; each such definition carries a doc comment starting with
  "Modelled from the spec:".

Tolerance-based deduplication and membership of the float code are modelled
as exact deduplication and exact inequalities on the exact scalars, i.e. the
tolerances are idealized to zero.
-/

/-- A 3-vector with components in an abstract scalar ring `K`
(idealizing the float components of orix `Vector3d`). -/
structure V3 (K : Type) where
  x : K
  y : K
  z : K
deriving DecidableEq

variable {K : Type}

/-- Componentwise zero vector. -/
def V3.zero [CommRing K] : V3 K := ⟨0, 0, 0⟩

/-- The z basis vector (`Vector3d.zvector()`). -/
def V3.zvec [CommRing K] : V3 K := ⟨0, 0, 1⟩

/-- Dot product (`Vector3d.dot`). -/
def V3.dot [CommRing K] (a b : V3 K) : K := a.x * b.x + a.y * b.y + a.z * b.z

/-- Cross product (`Vector3d.cross`). -/
def V3.cross [CommRing K] (a b : V3 K) : V3 K :=
  ⟨a.y * b.z - a.z * b.y, a.z * b.x - a.x * b.z, a.x * b.y - a.y * b.x⟩

/-- Componentwise sum of a list of vectors. -/
def V3.sumL [CommRing K] (l : List (V3 K)) : V3 K :=
  l.foldr (fun a b => ⟨a.x + b.x, a.y + b.y, a.z + b.z⟩) V3.zero

/-- Componentwise arithmetic mean (`Vector3d.mean`): the componentwise sum
divided by the number of vectors. -/
def V3.mean [CommRing K] [Div K] (l : List (V3 K)) : V3 K :=
  let s := V3.sumL l
  ⟨s.x / (l.length : K), s.y / (l.length : K), s.z / (l.length : K)⟩

/-- Order-preserving exact deduplication, keeping the first occurrence of
each value: the idealization (tolerance 0) of the tolerance-based
`Vector3d.unique` of the primitive library.  `seen` accumulates the values
already emitted. -/
def uniqueAux {α : Type} [DecidableEq α] : List α → List α → List α
  | _, [] => []
  | seen, a :: as =>
    if a ∈ seen then uniqueAux seen as else a :: uniqueAux (a :: seen) as

/-- Keep-first deduplication of a list (see `uniqueAux`). -/
def uniqueKeepFirst {α : Type} [DecidableEq α] (l : List α) : List α :=
  uniqueAux [] l

/-- Membership in the spherical region `{v : dot(n, v) ≥ 0 for all normals n}`
including its border: the operator `v <= region` of `SphericalRegion`
(its `__ge__`), with the float tolerance idealized to zero. -/
def insideEq [CommRing K] [LinearOrder K] (normals : List (V3 K)) (v : V3 K) : Bool :=
  normals.all (fun n => decide (0 ≤ V3.dot n v))

/-- Strict membership in the spherical region: the operator `v < region` of
`SphericalRegion` (its `__gt__`), with the float tolerance idealized to
zero. -/
def insideStrict [CommRing K] [LinearOrder K] (normals : List (V3 K)) (v : V3 K) : Bool :=
  normals.all (fun n => decide (0 < V3.dot n v))

/-- The external vector primitives consumed by `FundamentalSector`
(out of scope of the specification: "the primitive vector/quaternion
arithmetic library … stereographic-projection plotting, and uniform
spherical sampling").  They are passed as explicit collaborators, as the
specification's design notes direct for the sampler.

* `unit` — `Vector3d.unit`: normalization to unit length; orix maps the
  zero vector to itself (`np.nan_to_num` of 0/0).
* `angleKey` — `Vector3d.angle_with`: the angle between two vectors.  It is
  consumed only through comparisons (`np.argmax`) and as an opaque rotation
  amount, so it is modelled as a `K`-valued key.
* `azimuth`, `polar` — the spherical coordinates used as sort keys.
* `rotAA` — rotation of a point about an axis by an angle
  (`Vector3d.rotate(axis=…, angle=…)`).
* `getCircle` — `Vector3d.get_circle(steps=…)`: the discretized great
  circle of a normal.
* `sampleS2` — `orix.sampling.uniform_S2_sample(resolution)`. -/
structure Prims (K : Type) where
  unit : V3 K → V3 K
  angleKey : V3 K → V3 K → K
  azimuth : V3 K → K
  polar : V3 K → K
  rotAA : V3 K → K → V3 K → V3 K
  getCircle : Nat → V3 K → List (V3 K)
  sampleS2 : K → List (V3 K)

/-- The fundamental sector for a symmetry in the inverse pole figure
(class `FundamentalSector(SphericalRegion)`): an ordered list of boundary
normals, together with the `_center` class attribute, which is `None` except
for the three groups 23, m-3 and 432, where the `Symmetry.fundamental_sector`
property sets it to a precomputed center. -/
structure FundamentalSector (K : Type) where
  normals : List (V3 K)
  center_ : Option (V3 K)

/-- `FundamentalSector.vertices` translated from the source:

    n = self.size
    if n == 0:
        return Vector3d.empty()
    else:
        normals = self.reshape(1, n)
        u = normals.cross(normals.transpose())
        return Vector3d(u[u <= self]).unique().unit

The broadcast `reshape(1, n).cross(transpose())` yields the row-major
matrix with entry `(i, j) = cross(normals[j], normals[i])`; the boolean mask
`u <= self` flattens row-major. -/
def FundamentalSector.vertices [CommRing K] [LinearOrder K]
    (P : Prims K) (s : FundamentalSector K) : List (V3 K) :=
  if s.normals.length = 0 then []
  else
    (uniqueKeepFirst
      (((s.normals.map (fun b => s.normals.map (fun a => V3.cross a b))).flatten).filter
        (fun v => insideEq s.normals v))).map P.unit

/-- First index of the maximum of a list together with that maximum
(`np.argmax` keeps the first index on ties). -/
def argmaxFirstAux [LinearOrder K] : List K → Option (Nat × K)
  | [] => none
  | a :: as =>
    match argmaxFirstAux as with
    | none => some (0, a)
    | some (j, v) => if a < v then some (j + 1, v) else some (0, a)

/-- First index of the maximum of a list (`np.argmax`), 0 for the empty
list. -/
def argmaxFirst [LinearOrder K] (l : List K) : Nat :=
  match argmaxFirstAux l with
  | none => 0
  | some (j, _) => j

/-- `FundamentalSector.center` translated from the source:

    v = self.vertices.unique()
    n_vertices = v.size
    n_normals = self.size
    if n_normals < 2:
        center = self
    elif n_vertices < 3:
        angles = self.angle_with(self.reshape(n_normals, 1)).data
        indices = np.argmax(angles, axis=1)
        center = self[indices].mean()
    elif n_vertices < 4:
        center = v.mean()
    elif isinstance(self._center, Vector3d):
        center = self._center
    else:
        v_all = uniform_S2_sample(resolution=1)
        v = v_all[v_all < self]
        center = v.mean()
    return Vector3d(center)

The broadcast angle matrix has entry `(i, j) = angle(normals[j], normals[i])`
and `np.argmax(…, axis=1)` takes the first maximum of each row.  In the
`n_normals < 2` branch the whole normal set is returned, so the result is
modelled as a list of vectors (a singleton in every other branch). -/
def FundamentalSector.center [CommRing K] [LinearOrder K] [Div K]
    (P : Prims K) (s : FundamentalSector K) : List (V3 K) :=
  if s.normals.length < 2 then s.normals
  else if (uniqueKeepFirst (s.vertices P)).length < 3 then
    [V3.mean ((s.normals.map (fun ni =>
      argmaxFirst (s.normals.map (fun nj => P.angleKey nj ni)))).map
        (fun i => s.normals.getD i V3.zero))]
  else if (uniqueKeepFirst (s.vertices P)).length < 4 then
    [V3.mean (uniqueKeepFirst (s.vertices P))]
  else
    match s.center_ with
    | some c => [c]
    | none => [V3.mean ((P.sampleS2 1).filter (fun p => insideStrict s.normals p))]

/-- Insert an element into a list, before the first element that is not
strictly below it (`lt` is the strict key comparison); equal-key elements
keep their relative order. -/
def insertByKey {α : Type} (lt : α → α → Bool) (a : α) : List α → List α
  | [] => [a]
  | b :: bs => if lt b a then b :: insertByKey lt a bs else a :: b :: bs

/-- Stable insertion sort by a strict key comparison: the model of the
stable numpy sorts (`np.lexsort`, and `np.argsort` followed by indexing —
any argsort result is a sorting permutation of its input). -/
def sortByKey {α : Type} (lt : α → α → Bool) (l : List α) : List α :=
  l.foldr (insertByKey lt) []

/-- Stable sort by the lexicographic key (polar, azimuth):
`np.lexsort((v_keep.azimuth.data, v_keep.polar.data))` (the last `lexsort`
key is the primary one) followed by indexing with the resulting order. -/
def lexsortPolarAzimuth [CommRing K] [LinearOrder K]
    (P : Prims K) (l : List (V3 K)) : List (V3 K) :=
  sortByKey (fun p q =>
    decide (P.polar p < P.polar q) ||
      (decide (P.polar p = P.polar q) && decide (P.azimuth p < P.azimuth q))) l

/-- The part of `FundamentalSector.edges` after `circles` and `vertices`
have been computed, with the vertex list as an explicit argument (the source
stores it in a local variable and branches on its emptiness):

    if vertices.size == 0:
        return circles

    j = 0
    for ci, vi in zip(circles, vertices):
        ci_inside = ci[ci <= self]
        v_keep = Vector3d(np.vstack((ci_inside.data, vi.data)))
        v_keep = v_keep.unique()
        order = np.lexsort((v_keep.azimuth.data, v_keep.polar.data))
        v_keep = v_keep[order]
        v_n = v_keep.size
        edges[j : j + v_n] = v_keep.data
        j += v_n
    edges = edges[:j]

    center = self.center
    vz = Vector3d.zvector()
    angle = vz.angle_with(center).data
    axis = vz.cross(center)
    edges_rotated = Vector3d(edges).rotate(axis=axis, angle=-angle)
    order = np.argsort(edges_rotated.azimuth.data)
    edges = edges[order]

    return Vector3d(edges)

`zip` truncates to the shorter of the two lists.  `np.argsort` is modelled
as a stable sort by the azimuth key (any argsort result is a sorting
permutation; only the produced order can differ on ties).  Returning the
raw `circles` object (shape `(size, steps)`) is modelled as the flattened
list of all circle points.  The translation is split into `azimuthSortKey`
(the sort key of the final reordering: the azimuth of a point after the
rotation taking the sector center to the pole), `processCircle` (the loop
body) and `edgesFromVerts` (the whole fragment). -/
def azimuthSortKey [CommRing K] [LinearOrder K] [Div K]
    (P : Prims K) (s : FundamentalSector K) (p : V3 K) : K :=
  P.azimuth
    (P.rotAA (V3.cross V3.zvec ((s.center P).getD 0 V3.zero))
      (-(P.angleKey V3.zvec ((s.center P).getD 0 V3.zero))) p)

/-- The per-circle processing of `edges` (the loop body above): intersect a
discretized circle with the region, append its positionally paired vertex,
deduplicate and sort by (polar, azimuth). -/
def processCircle [CommRing K] [LinearOrder K]
    (P : Prims K) (s : FundamentalSector K) (cv : List (V3 K) × V3 K) : List (V3 K) :=
  lexsortPolarAzimuth P
    (uniqueKeepFirst ((cv.1.filter (fun p => insideEq s.normals p)) ++ [cv.2]))

/-- The source fragment quoted at `azimuthSortKey`, assembled: early return
of the raw circles when the vertex list is empty, otherwise the
concatenation of the processed circles reordered by the centered azimuth. -/
def edgesFromVerts [CommRing K] [LinearOrder K] [Div K]
    (P : Prims K) (s : FundamentalSector K) (verts : List (V3 K)) : List (V3 K) :=
  if verts.length = 0 then (s.normals.map (P.getCircle 500)).flatten
  else
    sortByKey (fun p q => decide (azimuthSortKey P s p < azimuthSortKey P s q))
      (((s.normals.map (P.getCircle 500)).zip verts).flatMap (processCircle P s))

/-- `FundamentalSector.edges` translated from the source:

    if self.size == 0:
        return Vector3d.empty()

    edge_steps = 500
    circles = self.get_circle(steps=edge_steps)
    edges = np.zeros((self.size * edge_steps + 3, 3))
    vertices = self.vertices
    … (continued in edgesFromVerts)

The preallocated buffer and the index `j` amount to concatenating the
per-circle point lists, which is how `edgesFromVerts` models them. -/
def FundamentalSector.edges [CommRing K] [LinearOrder K] [Div K]
    (P : Prims K) (s : FundamentalSector K) : List (V3 K) :=
  if s.normals.length = 0 then []
  else edgesFromVerts P s (s.vertices P)

/-! ## Concrete instances of the external primitives

Used only to evaluate the definitions on concrete inputs (witnesses and
counterexamples); every general theorem is parametric in `Prims`. -/

/-- Concrete integer stand-in for the external primitives.

* `unit` is the identity: on the inputs arising in the concrete evaluations
  every vector is either the zero vector (which orix normalization maps to
  itself via `np.nan_to_num`) or already of unit length, so the identity
  agrees with exact normalization there.
* `angleKey` is the negated dot product: the angle is `arccos` of the
  normalized dot product and `arccos` is strictly decreasing, so for unit
  vectors the negated dot product induces exactly the angle order, which is
  all the code consumes (`np.argmax` and sort keys).
* `azimuth`/`polar`/`rotAA` only influence sort orders; the constant-key
  stand-ins make every sort stable-identity, and no fact established on a
  concrete input depends on the produced order.
* `getCircle` returns no points; the circle-processing path is exercised
  by `c4Prims` below.
* `sampleS2` returns one direction strictly inside the octant sector used
  by the concrete inputs (not normalized; only its membership and mean
  matter). -/
def intPrims : Prims ℤ where
  unit := fun v => v
  angleKey := fun a b => -(V3.dot a b)
  azimuth := fun _ => 0
  polar := fun _ => 0
  rotAA := fun _ _ p => p
  getCircle := fun _ _ => []
  sampleS2 := fun _ => [⟨1, 1, 1⟩]

/-- `intPrims` with a two-point circle generator: the great circle of the
(0,0,1) normal is discretized by the single in-region point (1,0,0) and any
other normal's circle by the single in-region point (0,1,0).  A discretized
circle is just a finite list of points; this instance keeps the concrete
evaluation small. -/
def c4Prims : Prims ℤ :=
  { intPrims with
    getCircle := fun _ v => if v = (⟨0, 0, 1⟩ : V3 ℤ) then [⟨1, 0, 0⟩] else [⟨0, 1, 0⟩] }

/-- Sector with the two orthogonal unit normals z and x (a quarter-sphere
region). -/
def sZX : FundamentalSector ℤ := ⟨[⟨0, 0, 1⟩, ⟨1, 0, 0⟩], none⟩

/-- Sector with the two antipodal unit normals z and -z (the region is the
equator): it has two normals but only one vertex, the zero vector. -/
def sZmZ : FundamentalSector ℤ := ⟨[⟨0, 0, 1⟩, ⟨0, 0, -1⟩], none⟩

/-- Sector with the three orthonormal normals x, y, z (the closed positive
octant), without a precomputed center. -/
def sXYZ : FundamentalSector ℤ := ⟨[⟨1, 0, 0⟩, ⟨0, 1, 0⟩, ⟨0, 0, 1⟩], none⟩

/-- The same octant sector as `sXYZ` but with a precomputed `_center`
override set. -/
def sXYZc : FundamentalSector ℤ := ⟨[⟨1, 0, 0⟩, ⟨0, 1, 0⟩, ⟨0, 0, 1⟩], some ⟨1, 1, 2⟩⟩

/-- Sector with the single normal z (a closed hemisphere). -/
def sZ : FundamentalSector ℤ := ⟨[⟨0, 0, 1⟩], none⟩

/-! ## Definitions following the specification's wording

For each refinement claim a second definition is written from the words of
the claim (not from the source), to be compared with the definition
translated from the source. -/

/-- The vertex set as claim C2 words it: "the pairwise cross products of
each normal with every other normal, with self-pairs excluded …
(a candidate u is kept only if u <= self), then deduplicated under tolerance
and normalized to unit length; with 0 normals it returns an empty vector
set".  The cross products are indexed over ordered pairs of distinct
indices, in the row-major order of the source's broadcast matrix
(entry (i, j) = cross(normals[j], normals[i])). -/
def verticesC2Claim [CommRing K] [LinearOrder K]
    (P : Prims K) (s : FundamentalSector K) : List (V3 K) :=
  if s.normals.length = 0 then []
  else
    (uniqueKeepFirst
      ((((List.range s.normals.length).flatMap (fun i =>
        ((List.range s.normals.length).filter (fun j => decide (j ≠ i))).map (fun j =>
          V3.cross (s.normals.getD j V3.zero) (s.normals.getD i V3.zero)))).filter
            (fun v => insideEq s.normals v)))).map P.unit

/-- The amended vertex set: the cross products of ALL ordered pairs of
normals, self-pairs included; the self-pairs yield zero vectors, which pass
the membership filter (all their dot products vanish) and survive
deduplication and normalization (orix normalization maps the zero vector to
itself).  Written over index pairs, in the row-major order of the source's
broadcast matrix. -/
def verticesC2Amended [CommRing K] [LinearOrder K]
    (P : Prims K) (s : FundamentalSector K) : List (V3 K) :=
  if s.normals.length = 0 then []
  else
    (uniqueKeepFirst
      ((((List.range s.normals.length).flatMap (fun i =>
        (List.range s.normals.length).map (fun j =>
          V3.cross (s.normals.getD j V3.zero) (s.normals.getD i V3.zero)))).filter
            (fun v => insideEq s.normals v)))).map P.unit

/-- The center as claim C3 words it, by case on normal/vertex counts:
fewer than 2 normals — the normal set itself; at least 2 normals but fewer
than 3 deduplicated vertices — the mean of the normals selected by the
row-wise argmax of the pairwise-angle matrix; exactly 3 vertices — the
arithmetic mean of the deduplicated vertices; 4 or more vertices — the
precomputed override when one is set, otherwise the mean of the uniformly
sampled sphere points lying inside the sector. -/
def centerC3Claim [CommRing K] [LinearOrder K] [Div K]
    (P : Prims K) (s : FundamentalSector K) : List (V3 K) :=
  if s.normals.length < 2 then s.normals
  else if 2 ≤ s.normals.length ∧ (uniqueKeepFirst (s.vertices P)).length < 3 then
    [V3.mean ((s.normals.map (fun ni =>
      argmaxFirst (s.normals.map (fun nj => P.angleKey nj ni)))).map
        (fun i => s.normals.getD i V3.zero))]
  else if (uniqueKeepFirst (s.vertices P)).length = 3 then
    [V3.mean (uniqueKeepFirst (s.vertices P))]
  else
    match s.center_ with
    | some c => [c]
    | none => [V3.mean ((P.sampleS2 1).filter (fun p => insideStrict s.normals p))]

/-! ## The proper-group resolver, modelled from the spec

`get_proper_groups` lives in src/orix/quaternion/orientation_region.py,
which is not among the provided sources; only its tests are
(src/orix/tests/quaternion/test_orientation_region.py). -/

/-- A named point group of the symmetry catalog, reduced to the two
predicates the proper-group resolver consumes: `is_proper` (the group has
no improper elements) and `contains_inversion`. -/
structure PointGroup where
  is_proper : Bool
  contains_inversion : Bool
deriving DecidableEq

/-- The proper-rotation subgroup of a group: proper and inversion-free. -/
def PointGroup.proper_subgroup (_ : PointGroup) : PointGroup := ⟨true, false⟩

/-- The group C1 (proper, trivial). -/
def C1g : PointGroup := ⟨true, false⟩

/-- The group Ci (improper; contains the inversion). -/
def Cig : PointGroup := ⟨false, true⟩

/-- The group Csz (improper: a mirror; does not contain the inversion). -/
def Cszg : PointGroup := ⟨false, false⟩

/-- Modelled from the spec: `get_proper_groups(Gl, Gr)`
(src/orix/quaternion/orientation_region.py is not under src/).  Policy from
spec section 4.1: proper groups pass through; a single improper group is
folded to its proper representation; the unsupported double-improper case
fails with the not-implemented error.  The spec's blanket "both improper
fails" wording contradicts its own section 8 and the repository's tests
(test_get_proper_point_groups: the pairs (Ci,Ci), (Ci,Csz) and (Csz,Ci)
must succeed; test_get_proper_point_group_not_implemented: (Csz,Csz) must
raise), which force the refined condition: the call fails exactly when both
groups are improper and neither contains the inversion. -/
def get_proper_groups (Gl Gr : PointGroup) : Except Unit (PointGroup × PointGroup) :=
  if Gl.is_proper && Gr.is_proper then Except.ok (Gl, Gr)
  else if Gl.is_proper && !Gr.is_proper then Except.ok (Gl, Gr.proper_subgroup)
  else if !Gl.is_proper && Gr.is_proper then Except.ok (Gl.proper_subgroup, Gr)
  else if Gl.contains_inversion || Gr.contains_inversion then
    Except.ok (Gl.proper_subgroup, Gr.proper_subgroup)
  else Except.error ()

/-- Whether a resolver result is the not-implemented error. -/
def raisesNotImplemented (r : Except Unit (PointGroup × PointGroup)) : Bool :=
  match r with
  | Except.error _ => true
  | Except.ok _ => false

/-! ## Exact scalars for the quaternion-space model

The distinguished points of the cyclic groups have components in
ℚ(sqrt 3), which is represented exactly: `QF` is an exact fraction over ℤ
kept in lowest terms (so that structural equality is value equality for all
results of the arithmetic), and `Q3` is a pair (a, b) denoting a + b·sqrt 3. -/

/-- An exact fraction: numerator and positive denominator in lowest terms.
All arithmetic goes through `QF.reduce`, so computed values are canonical. -/
structure QF where
  n : Int
  d : Nat
deriving DecidableEq

/-- Reduce a fraction to lowest terms. -/
def QF.reduce (n : Int) (d : Nat) : QF :=
  let g := Nat.gcd n.natAbs d
  ⟨n / (g : Int), d / g⟩

/-- Fraction addition. -/
def QF.add (p q : QF) : QF := QF.reduce (p.n * q.d + q.n * p.d) (p.d * q.d)

/-- Fraction multiplication. -/
def QF.mul (p q : QF) : QF := QF.reduce (p.n * q.n) (p.d * q.d)

/-- Fraction negation. -/
def QF.neg (p : QF) : QF := ⟨-p.n, p.d⟩

/-- Fraction subtraction. -/
def QF.sub (p q : QF) : QF := QF.add p (QF.neg q)

/-- The fraction 0. -/
def QF.zero : QF := ⟨0, 1⟩

/-- The fraction 1. -/
def QF.one : QF := ⟨1, 1⟩

/-- An element a + b·sqrt 3 of the quadratic field ℚ(sqrt 3). -/
structure Q3 where
  a : QF
  b : QF
deriving DecidableEq

/-- Addition in ℚ(sqrt 3). -/
def Q3.add (p q : Q3) : Q3 := ⟨QF.add p.a q.a, QF.add p.b q.b⟩

/-- Multiplication in ℚ(sqrt 3):
(a₁ + b₁s)(a₂ + b₂s) = a₁a₂ + 3b₁b₂ + (a₁b₂ + b₁a₂)s for s = sqrt 3. -/
def Q3.mul (p q : Q3) : Q3 :=
  ⟨QF.add (QF.mul p.a q.a) (QF.mul (QF.mul ⟨3, 1⟩ p.b) q.b),
   QF.add (QF.mul p.a q.b) (QF.mul p.b q.a)⟩

/-- Negation in ℚ(sqrt 3). -/
def Q3.neg (p : Q3) : Q3 := ⟨QF.neg p.a, QF.neg p.b⟩

/-- Subtraction in ℚ(sqrt 3). -/
def Q3.sub (p q : Q3) : Q3 := Q3.add p (Q3.neg q)

/-- 0 in ℚ(sqrt 3). -/
def Q3.zero : Q3 := ⟨QF.zero, QF.zero⟩

/-- 1 in ℚ(sqrt 3). -/
def Q3.one : Q3 := ⟨QF.one, QF.zero⟩

/-- 1/2 in ℚ(sqrt 3). -/
def Q3.half : Q3 := ⟨⟨1, 2⟩, QF.zero⟩

/-- sqrt(3)/2 in ℚ(sqrt 3). -/
def Q3.hs3 : Q3 := ⟨QF.zero, ⟨1, 2⟩⟩

/-- A quaternion with components in ℚ(sqrt 3), stored in orix data order
(a, b, c, d) = (w, x, y, z). -/
structure Quat where
  a : Q3
  b : Q3
  c : Q3
  d : Q3
deriving DecidableEq

/-- Hamilton product of quaternions. -/
def Quat.mul (p q : Quat) : Quat :=
  ⟨Q3.sub (Q3.sub (Q3.sub (Q3.mul p.a q.a) (Q3.mul p.b q.b)) (Q3.mul p.c q.c)) (Q3.mul p.d q.d),
   Q3.add (Q3.add (Q3.add (Q3.mul p.a q.b) (Q3.mul p.b q.a)) (Q3.mul p.c q.d)) (Q3.neg (Q3.mul p.d q.c)),
   Q3.add (Q3.add (Q3.sub (Q3.mul p.a q.c) (Q3.mul p.b q.d)) (Q3.mul p.c q.a)) (Q3.mul p.d q.b),
   Q3.add (Q3.add (Q3.add (Q3.mul p.a q.d) (Q3.mul p.b q.c)) (Q3.neg (Q3.mul p.c q.b))) (Q3.mul p.d q.a)⟩

/-- Quaternion conjugate: the inverse of a unit quaternion. -/
def Quat.conj (p : Quat) : Quat := ⟨p.a, Q3.neg p.b, Q3.neg p.c, Q3.neg p.d⟩

/-- Quaternion negation (the antipodal double-cover partner). -/
def Quat.neg (p : Quat) : Quat := ⟨Q3.neg p.a, Q3.neg p.b, Q3.neg p.c, Q3.neg p.d⟩

/-- The identity quaternion. -/
def Quat.one : Quat := ⟨Q3.one, Q3.zero, Q3.zero, Q3.zero⟩

/-- Modelled from the spec: the stored element list of the trivial group C1
of the external symmetry catalog. -/
def C1quat : List Quat := [Quat.one]

/-- Modelled from the spec: the stored element list of the group C2
(identity and the 180-degree rotation about the symmetry axis z). -/
def C2quat : List Quat := [Quat.one, ⟨Q3.zero, Q3.zero, Q3.zero, Q3.one⟩]

/-- Modelled from the spec: the stored element list of the group C3
(identity and the 120- and 240-degree rotations about z; the half-angle
quaternions are (1/2, 0, 0, sqrt3/2) and (-1/2, 0, 0, sqrt3/2)). -/
def C3quat : List Quat :=
  [Quat.one,
   ⟨Q3.half, Q3.zero, Q3.zero, Q3.hs3⟩,
   ⟨Q3.neg Q3.half, Q3.zero, Q3.zero, Q3.hs3⟩]

/-- The per-element antipodal doubling [q, -q, …] of a rotation list
(`Rotation.antipodal`); the interleaved order is fixed by the repository's
test vectors (test_get_distinguished_points lists each point immediately
followed by its negative). -/
def antipodalInterleave (l : List Quat) : List Quat :=
  l.flatMap (fun q => [q, q.neg])

/-- Modelled from the spec: `get_distinguished_points(Gl, Gr)`
(src/orix/quaternion/symmetry.py is not under src/).  Spec section 4.2:
enumerate the products g_l · g_r⁻¹, append the antipodal partners,
deduplicate, and discard the identity (the elements of rotation angle 0;
the orix angle is 2·arccos|w|, so angle > 0 is exactly w² ≠ 1 for unit
quaternions).  Two clauses of the spec's wording are overridden by the
repository's own tests: the test vectors for (D3, C3) contain elements at
two different rotation angles, so no minimum-angle retention is applied,
and they keep both q and -q, so deduplication does not identify antipodal
partners. -/
def get_distinguished_points (s1 s2 : List Quat) : List Quat :=
  let products := s1.flatMap (fun g => s2.map (fun h => g.mul h.conj))
  (uniqueKeepFirst (antipodalInterleave products)).filter
    (fun q => decide (Q3.mul q.a q.a ≠ Q3.one))

/-- The real value of an exact fraction. -/
noncomputable def QF.toReal (p : QF) : ℝ := (p.n : ℝ) / (p.d : ℝ)

/-- The real value of an element of ℚ(sqrt 3). -/
noncomputable def Q3.toReal (v : Q3) : ℝ := v.a.toReal + v.b.toReal * Real.sqrt 3

/-- A quaternion approximates a 4-tuple of rationals componentwise within
the test tolerance 1e-3. -/
def Quat.approx (q : Quat) (t : ℚ × ℚ × ℚ × ℚ) : Prop :=
  |q.a.toReal - (t.1 : ℝ)| ≤ 1 / 1000 ∧ |q.b.toReal - (t.2.1 : ℝ)| ≤ 1 / 1000 ∧
    |q.c.toReal - (t.2.2.1 : ℝ)| ≤ 1 / 1000 ∧ |q.d.toReal - (t.2.2.2 : ℝ)| ≤ 1 / 1000

/-! ## Helper lemmas -/

theorem mem_uniqueAux {α : Type} [DecidableEq α] (a : α) :
    ∀ (l seen : List α), a ∈ uniqueAux seen l ↔ a ∈ l ∧ a ∉ seen := by
  intro l
  induction l with
  | nil => intro seen; simp [uniqueAux]
  | cons x xs ih =>
    intro seen
    by_cases hx : x ∈ seen
    · simp only [uniqueAux, if_pos hx]
      rw [ih]
      constructor
      · rintro ⟨h1, h2⟩
        exact ⟨List.mem_cons_of_mem _ h1, h2⟩
      · rintro ⟨h1, h2⟩
        rcases List.mem_cons.mp h1 with h | h
        · exact absurd (h ▸ hx) h2
        · exact ⟨h, h2⟩
    · simp only [uniqueAux, if_neg hx]
      constructor
      · intro hmem
        rcases List.mem_cons.mp hmem with h | h
        · exact ⟨List.mem_cons.mpr (Or.inl h), h ▸ hx⟩
        · obtain ⟨h1, h2⟩ := (ih _).mp h
          exact ⟨List.mem_cons.mpr (Or.inr h1),
            fun hs => h2 (List.mem_cons_of_mem _ hs)⟩
      · rintro ⟨h1, h2⟩
        rcases List.mem_cons.mp h1 with h | h
        · exact List.mem_cons.mpr (Or.inl h)
        · by_cases hax : a = x
          · exact List.mem_cons.mpr (Or.inl hax)
          · refine List.mem_cons.mpr (Or.inr ((ih _).mpr ⟨h, ?_⟩))
            intro hs
            rcases List.mem_cons.mp hs with h3 | h3
            · exact hax h3
            · exact h2 h3

theorem mem_uniqueKeepFirst {α : Type} [DecidableEq α] (a : α) (l : List α) :
    a ∈ uniqueKeepFirst l ↔ a ∈ l := by
  simp [uniqueKeepFirst, mem_uniqueAux]

theorem mem_insertByKey {α : Type} (lt : α → α → Bool) (x a : α) :
    ∀ (l : List α), x ∈ insertByKey lt a l ↔ x = a ∨ x ∈ l := by
  intro l
  induction l with
  | nil => simp [insertByKey]
  | cons b bs ih =>
    by_cases h : lt b a = true
    · simp only [insertByKey, if_pos h, List.mem_cons, ih]
      try tauto
    · simp only [insertByKey, if_neg h, List.mem_cons]
      try tauto

theorem mem_sortByKey {α : Type} {lt : α → α → Bool} {x : α} {l : List α} :
    x ∈ sortByKey lt l ↔ x ∈ l := by
  induction l with
  | nil => simp [sortByKey]
  | cons b bs ih =>
    simp only [sortByKey, List.foldr_cons, List.mem_cons]
    rw [mem_insertByKey]
    rw [show List.foldr (insertByKey lt) [] bs = sortByKey lt bs from rfl, ih]

theorem V3.cross_self [CommRing K] (v : V3 K) : V3.cross v v = V3.zero := by
  simp only [V3.cross, V3.zero]
  congr 1 <;> ring

theorem insideEq_zero [CommRing K] [LinearOrder K] (normals : List (V3 K)) :
    insideEq normals V3.zero = true := by
  simp only [insideEq, List.all_eq_true]
  intro n _
  have : V3.dot n V3.zero = 0 := by simp [V3.dot, V3.zero]
  simp [this]

theorem map_getD_range {α β : Type} (l : List α) (g : α → β) (dflt : α) :
    l.map g = (List.range l.length).map (fun i => g (l.getD i dflt)) := by
  apply List.ext_getElem
  · simp
  · intro i h1 h2
    simp only [List.getElem_map, List.getElem_range]
    rw [List.getD_eq_getElem l dflt (by simpa using h1)]

/-! ## Claim C1 (corrected) -/

/-- C1, counterexample: the claim "get_proper_groups raises a
not-implemented error if and only if both input groups contain improper
elements" fails at the concrete input (Ci, Ci): both groups are improper
(contain improper elements), yet the call returns without raising, because
both contain the inversion. -/
theorem c1_counterexample :
    Cig.is_proper = false ∧ Cig.contains_inversion = true ∧
      raisesNotImplemented (get_proper_groups Cig Cig) = false := by decide

/-- C1, amended: get_proper_groups raises the not-implemented error if and
only if both input groups are improper AND neither contains the inversion;
consequently, among the nine pairs in {C1,Ci,Csz} x {C1,Ci,Csz} the call
raises exactly for (Csz, Csz) and returns without raising for every other
pair. -/
theorem c1_amended :
    (∀ pl il pr ir : Bool,
        raisesNotImplemented (get_proper_groups ⟨pl, il⟩ ⟨pr, ir⟩)
          = (!pl && !pr && !il && !ir)) ∧
    (([C1g, Cig, Cszg].all fun Gl => [C1g, Cig, Cszg].all fun Gr =>
        raisesNotImplemented (get_proper_groups Gl Gr)
          == (decide (Gl = Cszg) && decide (Gr = Cszg))) = true) := by
  exact ⟨by decide, by decide⟩

/-! ## Claim C2 (corrected) -/

/-- C2, counterexample: for the sector with the two normals z and x, the
vertices property does NOT equal the claim's described set (pairwise cross
products of each normal with every other normal, membership-filtered,
deduplicated, normalized): the self-pair cross products are zero vectors,
they PASS the membership filter (all their dot products vanish), and the
zero vector is an element of the computed vertices but not of the claimed
set. -/
theorem c2_counterexample :
    0 < sZX.normals.length ∧
    FundamentalSector.vertices intPrims sZX ≠ verticesC2Claim intPrims sZX ∧
    V3.zero ∈ FundamentalSector.vertices intPrims sZX ∧
    V3.zero ∉ verticesC2Claim intPrims sZX := by decide

/-- C2, amended: for every FundamentalSector with n > 0 normals, vertices
equals the pairwise cross products of ALL ordered pairs of normals —
self-pairs are NOT excluded: their zero cross products pass the region's
membership filter — filtered by membership (u <= self), deduplicated, and
normalized (normalization fixes the zero vector); with 0 normals it returns
the empty set. -/
theorem c2_amended (K : Type) [CommRing K] [LinearOrder K]
    (P : Prims K) (s : FundamentalSector K) :
    s.vertices P = verticesC2Amended P s := by
  unfold FundamentalSector.vertices verticesC2Amended
  by_cases h : s.normals.length = 0
  · rw [if_pos h, if_pos h]
  · rw [if_neg h, if_neg h]
    have hu : (s.normals.map (fun b => s.normals.map (fun a => V3.cross a b))).flatten
        = (List.range s.normals.length).flatMap (fun i =>
            (List.range s.normals.length).map (fun j =>
              V3.cross (s.normals.getD j V3.zero) (s.normals.getD i V3.zero))) := by
      rw [List.flatMap_def,
        map_getD_range s.normals (fun b => s.normals.map (fun a => V3.cross a b)) V3.zero]
      congr 1
      apply List.map_congr_left
      intro i _
      exact map_getD_range s.normals (fun a => V3.cross a (s.normals.getD i V3.zero)) V3.zero
    rw [hu]

/-! ## Claim C9 (confirmed) -/

/-- C9: a FundamentalSector with zero normals returns an empty vector set
from vertices, an empty vector set from edges, and a well-defined empty
vector set from center, for every choice of the external primitives and of
the center override; all three are total functions of the sector (the
degenerate cases are explicit branches, nothing raises). -/
theorem c9_zero_normals (K : Type) [CommRing K] [LinearOrder K] [Div K]
    (P : Prims K) (ov : Option (V3 K)) :
    (FundamentalSector.mk [] ov).vertices P = [] ∧
    (FundamentalSector.mk [] ov).center P = [] ∧
    (FundamentalSector.mk [] ov).edges P = [] :=
  ⟨rfl, rfl, rfl⟩

/-! ## Claim C10 (confirmed) -/

/-- C10: in the edges computation, the branch taken when the vertex list is
empty (and the normal list is not) returns the complete discretized great
circles of all normals as-is — no membership filtering, no deduplication,
no azimuth sort; moreover for every sector with at least one normal the
vertex list is in fact never empty (each self-pair cross product is the
zero vector, which passes the membership filter), so the branch is
defensive dead code. -/
theorem c10_empty_vertex_branch :
    (∀ (K : Type) [CommRing K] [LinearOrder K] [Div K] (P : Prims K)
        (s : FundamentalSector K),
        edgesFromVerts P s [] = (s.normals.map (P.getCircle 500)).flatten) ∧
    (∀ (K : Type) [CommRing K] [LinearOrder K] (P : Prims K)
        (s : FundamentalSector K), s.normals ≠ [] → s.vertices P ≠ []) := by
  constructor
  · intro K _ _ _ P s
    rfl
  · intro K _ _ P s hne
    have h0 : ¬(s.normals.length = 0) := by
      simpa [List.length_eq_zero] using hne
    obtain ⟨n0, rest, hn⟩ := List.exists_cons_of_ne_nil hne
    unfold FundamentalSector.vertices
    rw [if_neg h0]
    apply List.ne_nil_of_mem (a := P.unit V3.zero)
    apply List.mem_map_of_mem
    rw [mem_uniqueKeepFirst]
    apply List.mem_filter.mpr
    refine ⟨?_, insideEq_zero s.normals⟩
    apply List.mem_flatten.mpr
    refine ⟨s.normals.map (fun a => V3.cross a n0), ?_, ?_⟩
    · exact List.mem_map_of_mem _ (by rw [hn]; exact List.mem_cons_self _ _)
    · have : V3.zero = V3.cross n0 n0 := (V3.cross_self n0).symm
      rw [this]
      exact List.mem_map_of_mem _ (by rw [hn]; exact List.mem_cons_self _ _)

/-- C10, witness: the branch equation and the nonemptiness instantiated at
the one-normal sector sZ with the concrete integer primitives. -/
theorem c10_witness :
    sZ.normals ≠ [] ∧ sZ.vertices intPrims ≠ [] ∧
      edgesFromVerts intPrims sZ [] = (sZ.normals.map (intPrims.getCircle 500)).flatten :=
  ⟨by decide, c10_empty_vertex_branch.2 ℤ intPrims sZ (by decide),
    c10_empty_vertex_branch.1 ℤ intPrims sZ⟩

/-! ## Claim C8 (corrected) -/

/-- C8, counterexample: center does NOT depend only on the sector's normal
set: the two sectors sXYZ and sXYZc have identical normal sets but
different precomputed-center overrides, and their centers differ (the
override is returned verbatim when at least 4 vertices exist, while without
an override the mean of the in-region sample points is returned). -/
theorem c8_counterexample :
    sXYZ.normals = sXYZc.normals ∧
      sXYZ.center intPrims ≠ sXYZc.center intPrims ∧
      sXYZ.center intPrims = [⟨1, 1, 1⟩] ∧ sXYZc.center intPrims = [⟨1, 1, 2⟩] := by
  decide

/-- C8, amended: vertices, center and edges are pure, deterministic
functions of their inputs: vertices depends only on the normal set (not on
the center override), while center — and through it edges — depends on the
normal set AND the precomputed center override (and on the external
sampling collaborator); two sectors agreeing on normals give equal vertex
sets, and two sectors agreeing on normals and override give equal centers
and equal edge lists. -/
theorem c8_amended (K : Type) [CommRing K] [LinearOrder K] [Div K]
    (P : Prims K) (s1 s2 : FundamentalSector K) (hn : s1.normals = s2.normals) :
    (s1.vertices P = s2.vertices P) ∧
    (s1.center_ = s2.center_ → s1.center P = s2.center P ∧ s1.edges P = s2.edges P) := by
  obtain ⟨n1, c1⟩ := s1
  obtain ⟨n2, c2⟩ := s2
  simp only at hn
  subst hn
  refine ⟨rfl, fun hc => ?_⟩
  simp only at hc
  subst hc
  exact ⟨rfl, rfl⟩

/-- C8, witness: the amended dependency statement instantiated at two
syntactically distinct sectors with equal normal lists and overrides. -/
theorem c8_amended_witness :
    (FundamentalSector.mk ([(⟨0, 0, 1⟩ : V3 ℤ)] ++ [⟨1, 0, 0⟩]) none).normals
        = sZX.normals ∧
    (FundamentalSector.mk ([(⟨0, 0, 1⟩ : V3 ℤ)] ++ [⟨1, 0, 0⟩]) none).vertices intPrims
        = sZX.vertices intPrims ∧
    (FundamentalSector.mk ([(⟨0, 0, 1⟩ : V3 ℤ)] ++ [⟨1, 0, 0⟩]) none).center intPrims
        = sZX.center intPrims :=
  ⟨by decide,
    (c8_amended ℤ intPrims _ sZX (by decide)).1,
    ((c8_amended ℤ intPrims _ sZX (by decide)).2 (by decide)).1⟩

/-! ## Claim C3 (confirmed) -/

/-- C3: for every FundamentalSector (and every choice of external
primitives), center is chosen by case on normal/vertex counts exactly as
the claim states: with fewer than 2 normals the normal set itself; with at
least 2 normals but fewer than 3 deduplicated vertices the mean of the
normals selected by the row-wise argmax of the pairwise-angle matrix; with
exactly 3 vertices the arithmetic mean of the deduplicated vertices; with 4
or more vertices the precomputed override when set, otherwise the mean of
the uniformly sampled sphere points lying inside the sector. -/
theorem c3_center_cases (K : Type) [CommRing K] [LinearOrder K] [Div K]
    (P : Prims K) (s : FundamentalSector K) :
    s.center P = centerC3Claim P s := by
  unfold FundamentalSector.center centerC3Claim
  by_cases h1 : s.normals.length < 2
  · rw [if_pos h1, if_pos h1]
  · rw [if_neg h1, if_neg h1]
    by_cases h2 : (uniqueKeepFirst (s.vertices P)).length < 3
    · rw [if_pos h2, if_pos (show 2 ≤ s.normals.length ∧
        (uniqueKeepFirst (s.vertices P)).length < 3 from ⟨by omega, h2⟩)]
    · rw [if_neg h2, if_neg (show ¬(2 ≤ s.normals.length ∧
        (uniqueKeepFirst (s.vertices P)).length < 3) from fun h => h2 h.2)]
      by_cases h3 : (uniqueKeepFirst (s.vertices P)).length < 4
      · rw [if_pos h3,
          if_pos (show (uniqueKeepFirst (s.vertices P)).length = 3 by omega)]
      · rw [if_neg h3,
          if_neg (show ¬(uniqueKeepFirst (s.vertices P)).length = 3 by omega)]

/-! ## Claim C4 (corrected) -/

/-- C4, counterexample: the claim "every boundary normal's in-region circle
points appear in the edges output" fails at the sector with normals z and
-z and a circle generator whose circle of -z contains the in-region point
(0,1,0): the sector has one vertex (the zero vector) against two normals,
so `zip(circles, vertices)` silently drops the second circle, and (0,1,0)
never reaches the edges output. -/
theorem c4_counterexample :
    sZmZ.normals ≠ [] ∧ sZmZ.vertices c4Prims ≠ [] ∧
    (⟨0, 0, -1⟩ : V3 ℤ) ∈ sZmZ.normals ∧
    (⟨0, 1, 0⟩ : V3 ℤ) ∈ (c4Prims.getCircle 500 ⟨0, 0, -1⟩).filter
        (fun p => insideEq sZmZ.normals p) ∧
    (⟨0, 1, 0⟩ : V3 ℤ) ∉ sZmZ.edges c4Prims := by decide

/-- C4, amended: the edges computation pairs circles with vertices
positionally and processes only the zipped pairs, i.e. the first
min(number of normals, number of vertices) circles; for every PROCESSED
circle, each of its points that lies in the region appears in the edges
output (the appended vertex, per-circle deduplication and the sorts
preserve membership); circles beyond the vertex count are dropped
entirely. -/
theorem c4_amended (K : Type) [CommRing K] [LinearOrder K] [Div K]
    (P : Prims K) (s : FundamentalSector K) (cv : List (V3 K) × V3 K)
    (hcv : cv ∈ (s.normals.map (P.getCircle 500)).zip (s.vertices P))
    (p : V3 K) (hp : p ∈ cv.1.filter (fun q => insideEq s.normals q)) :
    p ∈ s.edges P := by
  have hnn : ¬(s.normals.length = 0) := by
    intro h
    rw [List.length_eq_zero] at h
    rw [h] at hcv
    simp at hcv
  have hvn : ¬((s.vertices P).length = 0) := by
    intro h
    rw [List.length_eq_zero] at h
    rw [h] at hcv
    simp at hcv
  unfold FundamentalSector.edges
  rw [if_neg hnn]
  unfold edgesFromVerts
  rw [if_neg hvn, mem_sortByKey]
  apply List.mem_flatMap.mpr
  refine ⟨cv, hcv, ?_⟩
  unfold processCircle lexsortPolarAzimuth
  rw [mem_sortByKey, mem_uniqueKeepFirst]
  exact List.mem_append_left _ hp

/-- C4, witness: the amended membership statement instantiated at the
sector with normals z and -z: the single zipped pair is the circle of z with the zero
vertex, and its in-region point (1,0,0) does appear in the edges output. -/
theorem c4_amended_witness :
    ([(⟨1, 0, 0⟩ : V3 ℤ)], (V3.zero : V3 ℤ))
        ∈ (sZmZ.normals.map (c4Prims.getCircle 500)).zip (sZmZ.vertices c4Prims) ∧
    (⟨1, 0, 0⟩ : V3 ℤ) ∈ ([(⟨1, 0, 0⟩ : V3 ℤ)], (V3.zero : V3 ℤ)).1.filter
        (fun q => insideEq sZmZ.normals q) ∧
    (⟨1, 0, 0⟩ : V3 ℤ) ∈ sZmZ.edges c4Prims :=
  ⟨by decide, by decide,
    c4_amended ℤ c4Prims sZmZ ([(⟨1, 0, 0⟩ : V3 ℤ)], (V3.zero : V3 ℤ)) (by decide)
      (⟨1, 0, 0⟩ : V3 ℤ) (by decide)⟩

/-! ## Claim C7 (confirmed) -/

set_option maxHeartbeats 2000000 in
/-- C7: get_distinguished_points(C2, C1) returns exactly the two points
(0,0,0,1) and (0,0,0,-1) — computed here exactly — and
get_distinguished_points(C3, C1) returns exactly the four points
(1/2,0,0,s), (-1/2,0,0,-s), (-1/2,0,0,s), (1/2,0,0,-s) with s = sqrt(3)/2;
componentwise these lie within the tolerance 1e-3 of the decimal reference
values (0,0,0,±1) and (±0.5, 0, 0, ±0.866) of the claim, in the listed
order. -/
theorem c7_distinguished_points :
    get_distinguished_points C2quat C1quat =
      [⟨Q3.zero, Q3.zero, Q3.zero, Q3.one⟩,
       ⟨Q3.zero, Q3.zero, Q3.zero, Q3.neg Q3.one⟩] ∧
    get_distinguished_points C3quat C1quat =
      [⟨Q3.half, Q3.zero, Q3.zero, Q3.hs3⟩,
       ⟨Q3.neg Q3.half, Q3.zero, Q3.zero, Q3.neg Q3.hs3⟩,
       ⟨Q3.neg Q3.half, Q3.zero, Q3.zero, Q3.hs3⟩,
       ⟨Q3.half, Q3.zero, Q3.zero, Q3.neg Q3.hs3⟩] ∧
    List.Forall₂ Quat.approx (get_distinguished_points C2quat C1quat)
      [(0, 0, 0, 1), (0, 0, 0, -1)] ∧
    List.Forall₂ Quat.approx (get_distinguished_points C3quat C1quat)
      [(1/2, 0, 0, 433/500), (-(1/2), 0, 0, -(433/500)),
       (-(1/2), 0, 0, 433/500), (1/2, 0, 0, -(433/500))] := by
  have hl : (173 / 100 : ℝ) ≤ Real.sqrt 3 :=
    (Real.le_sqrt (by norm_num) (by norm_num)).mpr (by norm_num)
  have hr : Real.sqrt 3 ≤ 17321 / 10000 :=
    (Real.sqrt_le_left (by norm_num)).mpr (by norm_num)
  refine ⟨by decide, by decide, ?_, ?_⟩
  · rw [show get_distinguished_points C2quat C1quat =
      [⟨Q3.zero, Q3.zero, Q3.zero, Q3.one⟩,
       ⟨Q3.zero, Q3.zero, Q3.zero, Q3.neg Q3.one⟩] from by decide]
    refine List.Forall₂.cons ?_ (List.Forall₂.cons ?_ List.Forall₂.nil) <;>
    · refine ⟨?_, ?_, ?_, ?_⟩ <;>
      · simp only [Quat.approx, Q3.toReal, QF.toReal, Q3.zero, Q3.one, Q3.neg,
          QF.zero, QF.one, QF.neg]
        push_cast
        rw [abs_le]
        constructor <;> nlinarith [hl, hr]
  · rw [show get_distinguished_points C3quat C1quat =
      [⟨Q3.half, Q3.zero, Q3.zero, Q3.hs3⟩,
       ⟨Q3.neg Q3.half, Q3.zero, Q3.zero, Q3.neg Q3.hs3⟩,
       ⟨Q3.neg Q3.half, Q3.zero, Q3.zero, Q3.hs3⟩,
       ⟨Q3.half, Q3.zero, Q3.zero, Q3.neg Q3.hs3⟩] from by decide]
    refine List.Forall₂.cons ?_ (List.Forall₂.cons ?_
      (List.Forall₂.cons ?_ (List.Forall₂.cons ?_ List.Forall₂.nil))) <;>
    · refine ⟨?_, ?_, ?_, ?_⟩ <;>
      · simp only [Quat.approx, Q3.toReal, QF.toReal, Q3.zero, Q3.one, Q3.neg,
          Q3.half, Q3.hs3, QF.zero, QF.one, QF.neg]
        push_cast
        rw [abs_le]
        constructor <;> nlinarith [hl, hr]
